import Mathlib

/-!
Verification of the semantic-version core of `process_packages.py`
(`parse_semver` and `compare_semver`).

The Python code is embedded shallowly:
* the regex `^(\d+)\.(\d+)\.(\d+)(?:-([0-9A-Za-z.-]+))?(?:\+([0-9A-Za-z.-]+))?$`
  is embedded as a deterministic maximal-munch parser (`parseRelease`,
  `parseTail`).  Every character class in the regex excludes the character
  that terminates it (digits exclude `.`, the identifier class excludes `+`),
  so greedy matching with backtracking coincides with maximal munch;
* Python's unbounded `int` is `Nat`;
* Python's `str.split(".")` is `splitDots` (it can produce empty tokens);
* Python's `str.isdigit()` is `pyIsDigit` (on the ASCII alphabet
  `[0-9A-Za-z-]` produced by the grammar the two coincide);
* Python's string `<`/`>` (code-point lexicographic) is `cmpChars`;
* the early-`return` cascade of `compare_semver` is the lexicographic
  composition `cmpLex`/`cmpList` of pointwise comparisons.
-/

set_option maxRecDepth 8000

/-- A parsed version: the tuple `(major, minor, patch, pre)` returned by
`parse_semver` in the source; `pre` is `None` or the list obtained by
`prerelease.split(".")`. -/
structure Version where
  major : Nat
  minor : Nat
  patch : Nat
  pre : Option (List String)
deriving DecidableEq

/-- The character class `[0-9A-Za-z.-]` used for the prerelease and build
metadata groups of the source regex. -/
def isIdentChar (c : Char) : Bool :=
  c.isDigit || c.isAlpha || c == '.' || c == '-'

/-- Maximal run of characters satisfying `p` (the greedy `X+` of the regex),
returning the run and the rest. -/
def spanP (p : Char → Bool) : List Char → List Char × List Char
  | [] => ([], [])
  | c :: rest =>
    if p c then
      let s := spanP p rest
      (c :: s.1, s.2)
    else ([], c :: rest)

/-- Python's `int` on a string of decimal digits (arbitrary precision). -/
def digitsToNat (l : List Char) : Nat :=
  l.foldl (fun n c => 10 * n + (c.toNat - 48)) 0

/-- Helper for `splitDots`: accumulates the current token (reversed). -/
def splitDotsAux : List Char → List Char → List String
  | [], acc => [String.mk acc.reverse]
  | c :: rest, acc =>
    if c = '.' then String.mk acc.reverse :: splitDotsAux rest []
    else splitDotsAux rest (c :: acc)

/-- Python's `str.split(".")`: splits on every dot, keeping empty tokens. -/
def splitDots (l : List Char) : List String := splitDotsAux l []

/-- The `(\d+)\.(\d+)\.(\d+)` part of the source regex: three nonempty digit
runs separated by literal dots; returns the three numbers and the rest of the
input. -/
def parseRelease (l : List Char) : Option (Nat × Nat × Nat × List Char) :=
  if (spanP Char.isDigit l).1 = [] then none
  else
    match (spanP Char.isDigit l).2 with
    | [] => none
    | c1 :: r1 =>
      if c1 = '.' then
        if (spanP Char.isDigit r1).1 = [] then none
        else
          match (spanP Char.isDigit r1).2 with
          | [] => none
          | c2 :: r2 =>
            if c2 = '.' then
              if (spanP Char.isDigit r2).1 = [] then none
              else
                some (digitsToNat (spanP Char.isDigit l).1,
                      digitsToNat (spanP Char.isDigit r1).1,
                      digitsToNat (spanP Char.isDigit r2).1,
                      (spanP Char.isDigit r2).2)
            else none
      else none

/-- The `(?:-([0-9A-Za-z.-]+))?(?:\+([0-9A-Za-z.-]+))?$` part of the source
regex applied to the rest of the input: an optional prerelease group (split on
dots and kept), an optional build metadata group (discarded), then end of
input.  Returns `none` when the rest does not match. -/
def parseTail : List Char → Option (Option (List String))
  | [] => some none
  | c :: r =>
    if c = '-' then
      if (spanP isIdentChar r).1 = [] then none
      else
        match (spanP isIdentChar r).2 with
        | [] => some (some (splitDots (spanP isIdentChar r).1))
        | c2 :: r2 =>
          if c2 = '+' then
            if (spanP isIdentChar r2).1 = [] then none
            else if (spanP isIdentChar r2).2 = [] then
              some (some (splitDots (spanP isIdentChar r).1))
            else none
          else none
    else if c = '+' then
      if (spanP isIdentChar r).1 = [] then none
      else if (spanP isIdentChar r).2 = [] then some none
      else none
    else none

/-- `parse_semver` from the source: full-string match of the regex, returning
`(major, minor, patch, pre)` or `None`. -/
def parse_semver (s : String) : Option Version :=
  match parseRelease s.data with
  | none => none
  | some (ma, mi, pa, rest) =>
    match parseTail rest with
    | none => none
    | some pre => some ⟨ma, mi, pa, pre⟩

/-- Python's `s.isdigit()` for the strings reachable here: nonempty and all
characters decimal digits (the grammar's tokens are ASCII, where this agrees
with Python). -/
def pyIsDigit (s : String) : Bool :=
  !s.data.isEmpty && s.data.all Char.isDigit

/-- Python's `int(s)` for a digit token. -/
def strToNat (s : String) : Nat := digitsToNat s.data

/-- The three-way comparison pattern of the source
(`if a > b: 1 / if a < b: -1 / fall through`), over any linear order. -/
def cmpLin {α : Type} [LinearOrder α] (a b : α) : Ordering :=
  if b < a then .gt else if a < b then .lt else .eq

/-- Numeric comparison of the release components (source lines 47-51, 71-77). -/
def cmpNat : Nat → Nat → Ordering := cmpLin

/-- Code-point comparison of single characters, used to embed Python's string
ordering. -/
def cmpChar : Char → Char → Ordering := cmpLin

/-- Generic lexicographic comparison of two lists with an element comparator:
the shared loop shape of the source (first difference decides, the exhausted
side is smaller, equal when both end together). -/
def cmpList {α : Type} (c : α → α → Ordering) : List α → List α → Ordering
  | [], [] => .eq
  | [], _ :: _ => .lt
  | _ :: _, [] => .gt
  | x :: t1, y :: t2 =>
    match c x y with
    | .eq => cmpList c t1 t2
    | o => o

/-- Python's `xa > xb` / `xa < xb` on strings: lexicographic by code point
(source lines 83-86). -/
def cmpChars (a b : List Char) : Ordering := cmpList cmpChar a b

/-- String comparison wrapper. -/
def cmpStr (a b : String) : Ordering := cmpChars a.data b.data

/-- Comparison of one prerelease identifier pair (source lines 71-86):
both numeric tokens compare as integers, a numeric token is below a
non-numeric one, two non-numeric tokens compare as strings. -/
def cmpTok (a b : String) : Ordering :=
  if pyIsDigit a && pyIsDigit b then cmpNat (strToNat a) (strToNat b)
  else if pyIsDigit a then .lt
  else if pyIsDigit b then .gt
  else cmpStr a b

/-- The prerelease loop of `compare_semver` (source lines 62-87):
`for i in range(max(la, lb))` with early returns on exhaustion or the first
non-equal identifier pair. -/
def cmpPre : List String → List String → Ordering := cmpList cmpTok

/-- The prerelease presence cases of `compare_semver` (source lines 53-60):
both absent is equal, the absent side is greater. -/
def cmpPreOpt : Option (List String) → Option (List String) → Ordering
  | none, none => .eq
  | none, some _ => .gt
  | some _, none => .lt
  | some x, some y => cmpPre x y

/-- Lexicographic composition of two comparators: the early-`return` cascade
of the source. -/
def cmpLex {α : Type} (c1 c2 : α → α → Ordering) (a b : α) : Ordering :=
  match c1 a b with
  | .eq => c2 a b
  | o => o

/-- Comparator pulled back along a projection. -/
def cmpBy {α β : Type} (f : β → α) (c : α → α → Ordering) (x y : β) : Ordering :=
  c (f x) (f y)

/-- The whole comparison of two parsed versions (source lines 47-87):
major, then minor, then patch, then the prerelease cases. -/
def cmpVer (x y : Version) : Ordering :=
  match cmpNat x.major y.major with
  | .eq =>
    match cmpNat x.minor y.minor with
    | .eq =>
      match cmpNat x.patch y.patch with
      | .eq => cmpPreOpt x.pre y.pre
      | o => o
    | o => o
  | o => o

/-- The result encoding of the source: `1`, `0`, `-1`. -/
def ordInt : Ordering → Int
  | .lt => -1
  | .eq => 0
  | .gt => 1

/-- `compare_semver` from the source: parse both strings (`None` when either
fails), then compare the parsed versions. -/
def compare_semver (a b : String) : Option Int :=
  match parse_semver a, parse_semver b with
  | some x, some y => some (ordInt (cmpVer x y))
  | _, _ => none

/-- Decimal digits of `n`, most significant first (Python's `str(n)`). -/
def natDigits (n : Nat) : List Char :=
  if _h : n < 10 then [Nat.digitChar n]
  else natDigits (n / 10) ++ [Nat.digitChar (n % 10)]
termination_by n
decreasing_by exact Nat.div_lt_self (by omega) (by omega)

/-- Tokens joined with dots (inverse of `splitDots`). -/
def joinDots : List String → List Char
  | [] => []
  | [a] => a.data
  | a :: t => a.data ++ '.' :: joinDots t

/-- Modelled from the spec: the canonical serialization
`major.minor.patch[-prerelease]` (build metadata excluded) used by the
round-trip property; no serializer exists in the source. -/
def serialize (v : Version) : String :=
  String.mk (natDigits v.major ++ '.' ::
    (natDigits v.minor ++ '.' ::
      (natDigits v.patch ++
        (match v.pre with
         | none => []
         | some ts => '-' :: joinDots ts))))

example : parse_semver "1.2.3" = some ⟨1, 2, 3, none⟩ := by decide
example : parse_semver "1.2.3-alpha.1+build.7" = some ⟨1, 2, 3, some ["alpha", "1"]⟩ := by decide
example : parse_semver "1.0.0-a..b" = some ⟨1, 0, 0, some ["a", "", "b"]⟩ := by decide
example : parse_semver "v1.2.3" = none := by decide
example : parse_semver "1.2" = none := by decide
example : parse_semver "1.2.3-" = none := by decide
example : parse_semver "1.2.3+" = none := by decide
example : parse_semver "1.2.3-x+a+b" = none := by decide
example : compare_semver "1.0.0" "1.0.0-alpha" = some 1 := by decide
example : compare_semver "1.0.0-9" "1.0.0-10" = some (-1) := by decide
example : compare_semver "1.0.0-1" "1.0.0-alpha" = some (-1) := by decide
example : compare_semver "1.0.0-alpha" "1.0.0-alpha.1" = some (-1) := by decide
example : compare_semver "1.0.0-01" "1.0.0-1" = some 0 := by decide
example : compare_semver "2.1.3" "2.1.3" = some 0 := by decide

/-! ## Comparator laws -/

/-- The laws a three-way comparator must satisfy to induce a total preorder:
reflexively equal, antisymmetric (swapping arguments swaps the result), and
transitive in the combinations needed for lexicographic composition. -/
structure CmpLaws {α : Type} (c : α → α → Ordering) : Prop where
  rfl_eq : ∀ a, c a a = .eq
  swap_eq : ∀ a b, (c a b).swap = c b a
  eq_trans : ∀ a b d, c a b = .eq → c b d = .eq → c a d = .eq
  gt_trans : ∀ a b d, c a b = .gt → c b d = .gt → c a d = .gt
  eq_gt : ∀ a b d, c a b = .eq → c b d = .gt → c a d = .gt
  gt_eq : ∀ a b d, c a b = .gt → c b d = .eq → c a d = .gt

theorem cmpLin_eq_iff {α : Type} [LinearOrder α] (a b : α) :
    cmpLin a b = .eq ↔ a = b := by
  unfold cmpLin
  split_ifs with h1 h2
  · simp [ne_of_gt h1]
  · simp [ne_of_lt h2]
  · simp [le_antisymm (not_lt.mp h2) (not_lt.mp h1)]

theorem cmpLin_gt_iff {α : Type} [LinearOrder α] (a b : α) :
    cmpLin a b = .gt ↔ b < a := by
  unfold cmpLin
  split_ifs with h1 h2 <;> simp [h1]

theorem cmpLin_lt_iff {α : Type} [LinearOrder α] (a b : α) :
    cmpLin a b = .lt ↔ a < b := by
  unfold cmpLin
  split_ifs with h1 h2
  · simp only [reduceCtorEq, false_iff]
    exact fun h => absurd h (asymm h1)
  · simp [h2]
  · simp [h2]

theorem cmpLin_laws {α : Type} [LinearOrder α] :
    CmpLaws (fun a b : α => cmpLin a b) := by
  refine ⟨?_, ?_, ?_, ?_, ?_, ?_⟩
  · intro a; simp [cmpLin]
  · intro a b
    rcases lt_trichotomy a b with h | h | h
    · rw [(cmpLin_lt_iff a b).mpr h, (cmpLin_gt_iff b a).mpr h]; rfl
    · subst h; rw [(cmpLin_eq_iff a a).mpr rfl]; rfl
    · rw [(cmpLin_gt_iff a b).mpr h, (cmpLin_lt_iff b a).mpr h]; rfl
  · intro a b d h1 h2
    rw [cmpLin_eq_iff] at h1 h2
    rw [cmpLin_eq_iff]
    exact h1.trans h2
  · intro a b d h1 h2
    rw [cmpLin_gt_iff] at h1 h2
    exact (cmpLin_gt_iff a d).mpr (h2.trans h1)
  · intro a b d h1 h2
    rw [cmpLin_eq_iff] at h1; rw [h1]; exact h2
  · intro a b d h1 h2
    rw [cmpLin_eq_iff] at h2; rw [← h2]; exact h1

theorem cmpNat_laws : CmpLaws cmpNat := cmpLin_laws

theorem cmpChar_laws : CmpLaws cmpChar := cmpLin_laws

theorem cmpNat_gt_iff (a b : Nat) : cmpNat a b = .gt ↔ b < a := cmpLin_gt_iff a b

theorem cmpNat_lt_iff (a b : Nat) : cmpNat a b = .lt ↔ a < b := cmpLin_lt_iff a b

theorem cmpNat_eq_iff (a b : Nat) : cmpNat a b = .eq ↔ a = b := cmpLin_eq_iff a b

theorem cmpBy_laws {α β : Type} (f : β → α) {c : α → α → Ordering}
    (hc : CmpLaws c) : CmpLaws (cmpBy f c) :=
  ⟨fun a => hc.rfl_eq (f a),
   fun a b => hc.swap_eq (f a) (f b),
   fun a b d => hc.eq_trans (f a) (f b) (f d),
   fun a b d => hc.gt_trans (f a) (f b) (f d),
   fun a b d => hc.eq_gt (f a) (f b) (f d),
   fun a b d => hc.gt_eq (f a) (f b) (f d)⟩

theorem cmpLex_then {α : Type} (c1 c2 : α → α → Ordering) (a b : α) :
    cmpLex c1 c2 a b = (c1 a b).then (c2 a b) := by
  cases hx : c1 a b <;> simp [cmpLex, Ordering.then, hx]

theorem cmpLex_laws {α : Type} {c1 c2 : α → α → Ordering}
    (h1 : CmpLaws c1) (h2 : CmpLaws c2) : CmpLaws (cmpLex c1 c2) := by
  refine ⟨?_, ?_, ?_, ?_, ?_, ?_⟩
  · intro a
    rw [cmpLex_then, h1.rfl_eq a, h2.rfl_eq a]; rfl
  · intro a b
    rw [cmpLex_then, cmpLex_then, Ordering.swap_then, h1.swap_eq a b, h2.swap_eq a b]
  · intro a b d hab hbd
    rw [cmpLex_then, Ordering.then_eq_eq] at hab hbd ⊢
    exact ⟨h1.eq_trans a b d hab.1 hbd.1, h2.eq_trans a b d hab.2 hbd.2⟩
  · intro a b d hab hbd
    rw [cmpLex_then, Ordering.then_eq_gt] at hab hbd ⊢
    rcases hab with hx | ⟨hx, hy⟩ <;> rcases hbd with hx' | ⟨hx', hy'⟩
    · exact Or.inl (h1.gt_trans a b d hx hx')
    · exact Or.inl (h1.gt_eq a b d hx hx')
    · exact Or.inl (h1.eq_gt a b d hx hx')
    · exact Or.inr ⟨h1.eq_trans a b d hx hx', h2.gt_trans a b d hy hy'⟩
  · intro a b d hab hbd
    rw [cmpLex_then, Ordering.then_eq_eq] at hab
    rw [cmpLex_then, Ordering.then_eq_gt] at hbd ⊢
    rcases hbd with hx' | ⟨hx', hy'⟩
    · exact Or.inl (h1.eq_gt a b d hab.1 hx')
    · exact Or.inr ⟨h1.eq_trans a b d hab.1 hx', h2.eq_gt a b d hab.2 hy'⟩
  · intro a b d hab hbd
    rw [cmpLex_then, Ordering.then_eq_eq] at hbd
    rw [cmpLex_then, Ordering.then_eq_gt] at hab ⊢
    rcases hab with hx | ⟨hx, hy⟩
    · exact Or.inl (h1.gt_eq a b d hx hbd.1)
    · exact Or.inr ⟨h1.eq_trans a b d hx hbd.1, h2.gt_eq a b d hy hbd.2⟩

theorem cmpList_rfl {α : Type} {c : α → α → Ordering} (hc : CmpLaws c)
    (l : List α) : cmpList c l l = .eq := by
  induction l with
  | nil => rfl
  | cons x t ih => simp [cmpList, hc.rfl_eq x, ih]

theorem cmpList_swap {α : Type} {c : α → α → Ordering} (hc : CmpLaws c)
    (a b : List α) : (cmpList c a b).swap = cmpList c b a := by
  induction a generalizing b with
  | nil => cases b <;> rfl
  | cons x t ih =>
    cases b with
    | nil => rfl
    | cons y u =>
      simp only [cmpList]
      cases h : c x y with
      | lt =>
        have h2 : c y x = .gt := by rw [← hc.swap_eq x y, h]; rfl
        rw [h2]; rfl
      | eq =>
        have h2 : c y x = .eq := by rw [← hc.swap_eq x y, h]; rfl
        rw [h2]; exact ih u
      | gt =>
        have h2 : c y x = .lt := by rw [← hc.swap_eq x y, h]; rfl
        rw [h2]; rfl

theorem cmpList_eq_trans {α : Type} {c : α → α → Ordering} (hc : CmpLaws c)
    (a b d : List α) (h1 : cmpList c a b = .eq) (h2 : cmpList c b d = .eq) :
    cmpList c a d = .eq := by
  induction a generalizing b d with
  | nil =>
    cases b with
    | nil => cases d with
      | nil => rfl
      | cons z v => exact absurd h2 (by simp [cmpList])
    | cons y u => exact absurd h1 (by simp [cmpList])
  | cons x t ih =>
    cases b with
    | nil => exact absurd h1 (by simp [cmpList])
    | cons y u =>
      cases d with
      | nil => exact absurd h2 (by simp [cmpList])
      | cons z v =>
        simp only [cmpList] at h1 h2 ⊢
        cases hxy : c x y <;> rw [hxy] at h1
        · exact Ordering.noConfusion h1
        · cases hyz : c y z <;> rw [hyz] at h2
          · exact Ordering.noConfusion h2
          · rw [hc.eq_trans x y z hxy hyz]
            exact ih u v h1 h2
          · exact Ordering.noConfusion h2
        · exact Ordering.noConfusion h1

theorem cmpList_gt_trans {α : Type} {c : α → α → Ordering} (hc : CmpLaws c)
    (a b d : List α) (h1 : cmpList c a b = .gt) (h2 : cmpList c b d = .gt) :
    cmpList c a d = .gt := by
  induction a generalizing b d with
  | nil =>
    cases b with
    | nil => exact absurd h1 (by simp [cmpList])
    | cons y u => exact absurd h1 (by simp [cmpList])
  | cons x t ih =>
    cases b with
    | nil => cases d with
      | nil => exact absurd h2 (by simp [cmpList])
      | cons z v => exact absurd h2 (by simp [cmpList])
    | cons y u =>
      cases d with
      | nil => simp [cmpList]
      | cons z v =>
        simp only [cmpList] at h1 h2 ⊢
        cases hxy : c x y <;> rw [hxy] at h1
        · exact Ordering.noConfusion h1
        · cases hyz : c y z <;> rw [hyz] at h2
          · exact Ordering.noConfusion h2
          · rw [hc.eq_trans x y z hxy hyz]
            exact ih u v h1 h2
          · rw [hc.eq_gt x y z hxy hyz]
        · cases hyz : c y z <;> rw [hyz] at h2
          · exact Ordering.noConfusion h2
          · rw [hc.gt_eq x y z hxy hyz]
          · rw [hc.gt_trans x y z hxy hyz]

theorem cmpList_eq_gt {α : Type} {c : α → α → Ordering} (hc : CmpLaws c)
    (a b d : List α) (h1 : cmpList c a b = .eq) (h2 : cmpList c b d = .gt) :
    cmpList c a d = .gt := by
  induction a generalizing b d with
  | nil =>
    cases b with
    | nil => cases d with
      | nil => exact absurd h2 (by simp [cmpList])
      | cons z v => exact absurd h2 (by simp [cmpList])
    | cons y u => exact absurd h1 (by simp [cmpList])
  | cons x t ih =>
    cases b with
    | nil => exact absurd h1 (by simp [cmpList])
    | cons y u =>
      cases d with
      | nil => simp [cmpList]
      | cons z v =>
        simp only [cmpList] at h1 h2 ⊢
        cases hxy : c x y <;> rw [hxy] at h1
        · exact Ordering.noConfusion h1
        · cases hyz : c y z <;> rw [hyz] at h2
          · exact Ordering.noConfusion h2
          · rw [hc.eq_trans x y z hxy hyz]
            exact ih u v h1 h2
          · rw [hc.eq_gt x y z hxy hyz]
        · exact Ordering.noConfusion h1

theorem cmpList_gt_eq {α : Type} {c : α → α → Ordering} (hc : CmpLaws c)
    (a b d : List α) (h1 : cmpList c a b = .gt) (h2 : cmpList c b d = .eq) :
    cmpList c a d = .gt := by
  induction a generalizing b d with
  | nil =>
    cases b <;> exact absurd h1 (by simp [cmpList])
  | cons x t ih =>
    cases b with
    | nil => cases d with
      | nil => simp [cmpList]
      | cons z v => exact absurd h2 (by simp [cmpList])
    | cons y u =>
      cases d with
      | nil => exact absurd h2 (by simp [cmpList])
      | cons z v =>
        simp only [cmpList] at h1 h2 ⊢
        cases hxy : c x y <;> rw [hxy] at h1
        · exact Ordering.noConfusion h1
        · cases hyz : c y z <;> rw [hyz] at h2
          · exact Ordering.noConfusion h2
          · rw [hc.eq_trans x y z hxy hyz]
            exact ih u v h1 h2
          · exact Ordering.noConfusion h2
        · cases hyz : c y z <;> rw [hyz] at h2
          · exact Ordering.noConfusion h2
          · rw [hc.gt_eq x y z hxy hyz]
          · exact Ordering.noConfusion h2

theorem cmpList_laws {α : Type} {c : α → α → Ordering} (hc : CmpLaws c) :
    CmpLaws (cmpList c) :=
  ⟨cmpList_rfl hc, cmpList_swap hc, cmpList_eq_trans hc, cmpList_gt_trans hc,
   cmpList_eq_gt hc, cmpList_gt_eq hc⟩

/-- `cmpList` is `.eq` exactly when the element comparator ties at every
index and the lists have the same length. -/
theorem cmpList_eq_iff {α : Type} (c : α → α → Ordering) (a b : List α) :
    cmpList c a b = .eq ↔ List.Forall₂ (fun x y => c x y = .eq) a b := by
  induction a generalizing b with
  | nil =>
    cases b <;> simp [cmpList]
  | cons x t ih =>
    cases b with
    | nil => simp [cmpList]
    | cons y u =>
      simp only [cmpList, List.forall₂_cons]
      cases hxy : c x y
      · simp [ih]
      · simp [ih]
      · simp [ih]

theorem cmpChars_laws : CmpLaws cmpChars := cmpList_laws cmpChar_laws

theorem string_eq_of_data (a b : String) (h : a.data = b.data) : a = b := by
  cases a; cases b; exact congrArg String.mk h

theorem cmpChars_eq_iff (a b : List Char) : cmpChars a b = .eq ↔ a = b := by
  unfold cmpChars
  rw [cmpList_eq_iff]
  constructor
  · intro h
    induction h with
    | nil => rfl
    | cons hxy _ ih => rw [(cmpLin_eq_iff _ _).mp hxy, ih]
  · intro h
    subst h
    induction a with
    | nil => exact List.Forall₂.nil
    | cons x t ih => exact List.Forall₂.cons (cmpChar_laws.rfl_eq x) ih

theorem cmpStr_eq_iff (a b : String) : cmpStr a b = .eq ↔ a = b := by
  constructor
  · intro h
    exact string_eq_of_data a b ((cmpChars_eq_iff a.data b.data).mp h)
  · intro h
    rw [h]
    exact cmpChars_laws.rfl_eq b.data

theorem cmpTok_cases (a b : String) (o : Ordering) (h : cmpTok a b = o) :
    (pyIsDigit a = true ∧ pyIsDigit b = true ∧ cmpNat (strToNat a) (strToNat b) = o) ∨
    (pyIsDigit a = true ∧ pyIsDigit b = false ∧ o = .lt) ∨
    (pyIsDigit a = false ∧ pyIsDigit b = true ∧ o = .gt) ∨
    (pyIsDigit a = false ∧ pyIsDigit b = false ∧ cmpStr a b = o) := by
  cases ha : pyIsDigit a <;> cases hb : pyIsDigit b <;>
    simp [cmpTok, ha, hb] at h
  · exact Or.inr (Or.inr (Or.inr ⟨rfl, rfl, h⟩))
  · exact Or.inr (Or.inr (Or.inl ⟨rfl, rfl, h.symm⟩))
  · exact Or.inr (Or.inl ⟨rfl, rfl, h.symm⟩)
  · exact Or.inl ⟨rfl, rfl, h⟩

theorem cmpTok_dd (a b : String) (ha : pyIsDigit a = true) (hb : pyIsDigit b = true) :
    cmpTok a b = cmpNat (strToNat a) (strToNat b) := by
  simp [cmpTok, ha, hb]

theorem cmpTok_dn (a b : String) (ha : pyIsDigit a = true) (hb : pyIsDigit b = false) :
    cmpTok a b = .lt := by
  simp [cmpTok, ha, hb]

theorem cmpTok_nd (a b : String) (ha : pyIsDigit a = false) (hb : pyIsDigit b = true) :
    cmpTok a b = .gt := by
  simp [cmpTok, ha, hb]

theorem cmpTok_nn (a b : String) (ha : pyIsDigit a = false) (hb : pyIsDigit b = false) :
    cmpTok a b = cmpStr a b := by
  simp [cmpTok, ha, hb]

theorem cmpTok_laws : CmpLaws cmpTok := by
  refine ⟨?_, ?_, ?_, ?_, ?_, ?_⟩
  · intro a
    cases ha : pyIsDigit a
    · rw [cmpTok_nn a a ha ha]; exact cmpChars_laws.rfl_eq a.data
    · rw [cmpTok_dd a a ha ha]; exact cmpNat_laws.rfl_eq _
  · intro a b
    cases ha : pyIsDigit a <;> cases hb : pyIsDigit b
    · rw [cmpTok_nn a b ha hb, cmpTok_nn b a hb ha]; exact cmpChars_laws.swap_eq _ _
    · rw [cmpTok_nd a b ha hb, cmpTok_dn b a hb ha]; rfl
    · rw [cmpTok_dn a b ha hb, cmpTok_nd b a hb ha]; rfl
    · rw [cmpTok_dd a b ha hb, cmpTok_dd b a hb ha]; exact cmpNat_laws.swap_eq _ _
  · intro a b d hab hbd
    rcases cmpTok_cases a b .eq hab with ⟨ha, hb, h⟩ | ⟨ha, hb, h⟩ | ⟨ha, hb, h⟩ | ⟨ha, hb, h⟩
    · rcases cmpTok_cases b d .eq hbd with ⟨hb2, hd, h2⟩ | ⟨hb2, hd, h2⟩ | ⟨hb2, hd, h2⟩ | ⟨hb2, hd, h2⟩
      · rw [cmpTok_dd a d ha hd]; exact cmpNat_laws.eq_trans _ _ _ h h2
      · exact absurd h2 (by decide)
      · exact absurd (hb.symm.trans hb2) (by decide)
      · exact absurd (hb.symm.trans hb2) (by decide)
    · exact absurd h (by decide)
    · exact absurd h (by decide)
    · rw [(cmpStr_eq_iff a b).mp h]; exact hbd
  · intro a b d hab hbd
    rcases cmpTok_cases a b .gt hab with ⟨ha, hb, h⟩ | ⟨ha, hb, h⟩ | ⟨ha, hb, h⟩ | ⟨ha, hb, h⟩
    · rcases cmpTok_cases b d .gt hbd with ⟨hb2, hd, h2⟩ | ⟨hb2, hd, h2⟩ | ⟨hb2, hd, h2⟩ | ⟨hb2, hd, h2⟩
      · rw [cmpTok_dd a d ha hd]; exact cmpNat_laws.gt_trans _ _ _ h h2
      · exact absurd h2 (by decide)
      · exact absurd (hb.symm.trans hb2) (by decide)
      · exact absurd (hb.symm.trans hb2) (by decide)
    · exact absurd h (by decide)
    · rcases cmpTok_cases b d .gt hbd with ⟨hb2, hd, h2⟩ | ⟨hb2, hd, h2⟩ | ⟨hb2, hd, h2⟩ | ⟨hb2, hd, h2⟩
      · exact cmpTok_nd a d ha hd
      · exact absurd h2 (by decide)
      · exact absurd (hb.symm.trans hb2) (by decide)
      · exact absurd (hb.symm.trans hb2) (by decide)
    · rcases cmpTok_cases b d .gt hbd with ⟨hb2, hd, h2⟩ | ⟨hb2, hd, h2⟩ | ⟨hb2, hd, h2⟩ | ⟨hb2, hd, h2⟩
      · exact absurd (hb2.symm.trans hb) (by decide)
      · exact absurd (hb2.symm.trans hb) (by decide)
      · exact cmpTok_nd a d ha hd
      · rw [cmpTok_nn a d ha hd]; exact cmpChars_laws.gt_trans _ _ _ h h2
  · intro a b d hab hbd
    rcases cmpTok_cases a b .eq hab with ⟨ha, hb, h⟩ | ⟨ha, hb, h⟩ | ⟨ha, hb, h⟩ | ⟨ha, hb, h⟩
    · rcases cmpTok_cases b d .gt hbd with ⟨hb2, hd, h2⟩ | ⟨hb2, hd, h2⟩ | ⟨hb2, hd, h2⟩ | ⟨hb2, hd, h2⟩
      · rw [cmpTok_dd a d ha hd]; exact cmpNat_laws.eq_gt _ _ _ h h2
      · exact absurd h2 (by decide)
      · exact absurd (hb.symm.trans hb2) (by decide)
      · exact absurd (hb.symm.trans hb2) (by decide)
    · exact absurd h (by decide)
    · exact absurd h (by decide)
    · rw [(cmpStr_eq_iff a b).mp h]; exact hbd
  · intro a b d hab hbd
    rcases cmpTok_cases b d .eq hbd with ⟨hb2, hd, h2⟩ | ⟨hb2, hd, h2⟩ | ⟨hb2, hd, h2⟩ | ⟨hb2, hd, h2⟩
    · rcases cmpTok_cases a b .gt hab with ⟨ha, hb, h⟩ | ⟨ha, hb, h⟩ | ⟨ha, hb, h⟩ | ⟨ha, hb, h⟩
      · rw [cmpTok_dd a d ha hd]; exact cmpNat_laws.gt_eq _ _ _ h h2
      · exact absurd h (by decide)
      · exact cmpTok_nd a d ha hd
      · exact absurd (hb.symm.trans hb2) (by decide)
    · exact absurd h2 (by decide)
    · exact absurd h2 (by decide)
    · rw [← (cmpStr_eq_iff b d).mp h2]; exact hab

theorem cmpPre_laws : CmpLaws cmpPre := cmpList_laws cmpTok_laws

theorem cmpPreOpt_laws : CmpLaws cmpPreOpt := by
  refine ⟨?_, ?_, ?_, ?_, ?_, ?_⟩
  · intro a; cases a with
    | none => rfl
    | some x => exact cmpPre_laws.rfl_eq x
  · intro a b
    cases a <;> cases b <;> try rfl
    exact cmpPre_laws.swap_eq _ _
  · intro a b d h1 h2
    cases a <;> cases b <;> cases d <;>
      simp_all [cmpPreOpt]
    exact cmpPre_laws.eq_trans _ _ _ h1 h2
  · intro a b d h1 h2
    cases a <;> cases b <;> cases d <;>
      simp_all [cmpPreOpt]
    exact cmpPre_laws.gt_trans _ _ _ h1 h2
  · intro a b d h1 h2
    cases a <;> cases b <;> cases d <;>
      simp_all [cmpPreOpt]
    exact cmpPre_laws.eq_gt _ _ _ h1 h2
  · intro a b d h1 h2
    cases a <;> cases b <;> cases d <;>
      simp_all [cmpPreOpt]
    exact cmpPre_laws.gt_eq _ _ _ h1 h2

theorem cmpVer_eq_lex : cmpVer = cmpLex (cmpBy Version.major cmpNat)
    (cmpLex (cmpBy Version.minor cmpNat)
      (cmpLex (cmpBy Version.patch cmpNat)
        (cmpBy Version.pre cmpPreOpt))) := by
  funext x y
  rfl

theorem cmpVer_laws : CmpLaws cmpVer := by
  rw [cmpVer_eq_lex]
  exact cmpLex_laws (cmpBy_laws Version.major cmpNat_laws)
    (cmpLex_laws (cmpBy_laws Version.minor cmpNat_laws)
      (cmpLex_laws (cmpBy_laws Version.patch cmpNat_laws)
        (cmpBy_laws Version.pre cmpPreOpt_laws)))

theorem ordInt_eq_one (o : Ordering) : ordInt o = 1 ↔ o = .gt := by
  cases o <;> simp [ordInt]

theorem ordInt_eq_zero (o : Ordering) : ordInt o = 0 ↔ o = .eq := by
  cases o <;> simp [ordInt]

theorem ordInt_eq_negone (o : Ordering) : ordInt o = -1 ↔ o = .lt := by
  cases o <;> simp [ordInt]

theorem compare_semver_parsed (a b : String) (va vb : Version)
    (ha : parse_semver a = some va) (hb : parse_semver b = some vb) :
    compare_semver a b = some (ordInt (cmpVer va vb)) := by
  unfold compare_semver
  rw [ha, hb]

/-- C1: on strings that parse, `compare_semver` is reflexively equal,
antisymmetric (`1` one way exactly when `-1` the other way, `0` together),
and transitive in the Greater direction. -/
theorem compare_semver_total_order (a b c : String) (va vb vc : Version)
    (ha : parse_semver a = some va) (hb : parse_semver b = some vb)
    (hc : parse_semver c = some vc) :
    compare_semver a a = some 0 ∧
    (compare_semver a b = some 1 ↔ compare_semver b a = some (-1)) ∧
    (compare_semver a b = some 0 ↔ compare_semver b a = some 0) ∧
    (compare_semver a b = some 1 → compare_semver b c = some 1 →
      compare_semver a c = some 1) := by
  rw [compare_semver_parsed a a va va ha ha,
      compare_semver_parsed a b va vb ha hb,
      compare_semver_parsed b a vb va hb ha,
      compare_semver_parsed b c vb vc hb hc,
      compare_semver_parsed a c va vc ha hc]
  refine ⟨?_, ?_, ?_, ?_⟩
  · rw [cmpVer_laws.rfl_eq va]; rfl
  · constructor
    · intro h
      simp only [Option.some_inj] at h ⊢
      rw [ordInt_eq_one] at h
      rw [ordInt_eq_negone, ← cmpVer_laws.swap_eq va vb, h]
      try decide
    · intro h
      simp only [Option.some_inj] at h ⊢
      rw [ordInt_eq_negone] at h
      rw [ordInt_eq_one, ← cmpVer_laws.swap_eq vb va, h]
      try decide
  · constructor
    · intro h
      simp only [Option.some_inj] at h ⊢
      rw [ordInt_eq_zero] at h ⊢
      rw [← cmpVer_laws.swap_eq va vb, h]
      try decide
    · intro h
      simp only [Option.some_inj] at h ⊢
      rw [ordInt_eq_zero] at h ⊢
      rw [← cmpVer_laws.swap_eq vb va, h]
      try decide
  · intro h1 h2
    simp only [Option.some_inj] at h1 h2 ⊢
    rw [ordInt_eq_one] at h1 h2 ⊢
    exact cmpVer_laws.gt_trans va vb vc h1 h2

theorem compare_semver_total_order_witness :
    compare_semver "1.0.0" "1.0.0" = some 0 ∧
    (compare_semver "1.0.0" "1.1.0-rc.1" = some 1 ↔
      compare_semver "1.1.0-rc.1" "1.0.0" = some (-1)) ∧
    (compare_semver "1.0.0" "1.1.0-rc.1" = some 0 ↔
      compare_semver "1.1.0-rc.1" "1.0.0" = some 0) ∧
    (compare_semver "1.0.0" "1.1.0-rc.1" = some 1 →
      compare_semver "1.1.0-rc.1" "2.0.0" = some 1 →
      compare_semver "1.0.0" "2.0.0" = some 1) :=
  compare_semver_total_order "1.0.0" "1.1.0-rc.1" "2.0.0"
    ⟨1, 0, 0, none⟩ ⟨1, 1, 0, some ["rc", "1"]⟩ ⟨2, 0, 0, none⟩
    (by decide) (by decide) (by decide)

/-- C4: the release triples of two parsed versions are compared major, then
minor, then patch, numerically; the first differing component alone decides
the result (`1` when the left side is larger, `-1` otherwise), regardless of
the remaining components and of the prerelease segments. -/
theorem compare_semver_first_difference (a b : String) (va vb : Version)
    (ha : parse_semver a = some va) (hb : parse_semver b = some vb) :
    (va.major ≠ vb.major →
      compare_semver a b = some (if vb.major < va.major then 1 else -1)) ∧
    (va.major = vb.major → va.minor ≠ vb.minor →
      compare_semver a b = some (if vb.minor < va.minor then 1 else -1)) ∧
    (va.major = vb.major → va.minor = vb.minor → va.patch ≠ vb.patch →
      compare_semver a b = some (if vb.patch < va.patch then 1 else -1)) := by
  rw [compare_semver_parsed a b va vb ha hb]
  refine ⟨?_, ?_, ?_⟩
  · intro hne
    rcases Nat.lt_trichotomy va.major vb.major with h | h | h
    · have h1 : cmpNat va.major vb.major = .lt := (cmpNat_lt_iff _ _).mpr h
      have h2 : ¬ vb.major < va.major := by omega
      simp [cmpVer, h1, h2, ordInt]
    · exact absurd h hne
    · have h1 : cmpNat va.major vb.major = .gt := (cmpNat_gt_iff _ _).mpr h
      simp [cmpVer, h1, h, ordInt]
  · intro hmaj hne
    have h0 : cmpNat va.major vb.major = .eq := (cmpNat_eq_iff _ _).mpr hmaj
    rcases Nat.lt_trichotomy va.minor vb.minor with h | h | h
    · have h1 : cmpNat va.minor vb.minor = .lt := (cmpNat_lt_iff _ _).mpr h
      have h2 : ¬ vb.minor < va.minor := by omega
      simp [cmpVer, h0, h1, h2, ordInt]
    · exact absurd h hne
    · have h1 : cmpNat va.minor vb.minor = .gt := (cmpNat_gt_iff _ _).mpr h
      simp [cmpVer, h0, h1, h, ordInt]
  · intro hmaj hmin hne
    have h0 : cmpNat va.major vb.major = .eq := (cmpNat_eq_iff _ _).mpr hmaj
    have h0' : cmpNat va.minor vb.minor = .eq := (cmpNat_eq_iff _ _).mpr hmin
    rcases Nat.lt_trichotomy va.patch vb.patch with h | h | h
    · have h1 : cmpNat va.patch vb.patch = .lt := (cmpNat_lt_iff _ _).mpr h
      have h2 : ¬ vb.patch < va.patch := by omega
      simp [cmpVer, h0, h0', h1, h2, ordInt]
    · exact absurd h hne
    · have h1 : cmpNat va.patch vb.patch = .gt := (cmpNat_gt_iff _ _).mpr h
      simp [cmpVer, h0, h0', h1, h, ordInt]

theorem compare_semver_first_difference_witness :
    compare_semver "2.0.0-alpha" "1.9.9" = some (if (1 : Nat) < 2 then 1 else -1) :=
  (compare_semver_first_difference "2.0.0-alpha" "1.9.9"
    ⟨2, 0, 0, some ["alpha"]⟩ ⟨1, 9, 9, none⟩ (by decide) (by decide)).1 (by decide)

/-- C5: with identical release triples, two versions without prerelease are
Equal; when exactly one has a prerelease, the one without it is Greater
(`"1.0.0"` vs `"1.0.0-alpha"` is `1`). -/
theorem release_dominates_prerelease (a b : String) (va vb : Version)
    (ha : parse_semver a = some va) (hb : parse_semver b = some vb)
    (hmaj : va.major = vb.major) (hmin : va.minor = vb.minor)
    (hpat : va.patch = vb.patch) :
    (va.pre = none → vb.pre = none → compare_semver a b = some 0) ∧
    (va.pre = none → vb.pre ≠ none → compare_semver a b = some 1) ∧
    (va.pre ≠ none → vb.pre = none → compare_semver a b = some (-1)) ∧
    compare_semver "1.0.0" "1.0.0-alpha" = some 1 := by
  rw [compare_semver_parsed a b va vb ha hb]
  have h0 : cmpNat va.major vb.major = .eq := (cmpNat_eq_iff _ _).mpr hmaj
  have h1 : cmpNat va.minor vb.minor = .eq := (cmpNat_eq_iff _ _).mpr hmin
  have h2 : cmpNat va.patch vb.patch = .eq := (cmpNat_eq_iff _ _).mpr hpat
  refine ⟨?_, ?_, ?_, by decide⟩
  · intro hpa hpb
    simp [cmpVer, h0, h1, h2, hpa, hpb, cmpPreOpt, ordInt]
  · intro hpa hpb
    obtain ⟨x, hx⟩ := Option.ne_none_iff_exists'.mp hpb
    simp [cmpVer, h0, h1, h2, hpa, hx, cmpPreOpt, ordInt]
  · intro hpa hpb
    obtain ⟨x, hx⟩ := Option.ne_none_iff_exists'.mp hpa
    simp [cmpVer, h0, h1, h2, hx, hpb, cmpPreOpt, ordInt]

theorem release_dominates_prerelease_witness :
    compare_semver "1.0.0" "1.0.0-alpha.7" = some 1 :=
  ((release_dominates_prerelease "1.0.0" "1.0.0-alpha.7"
    ⟨1, 0, 0, none⟩ ⟨1, 0, 0, some ["alpha", "7"]⟩
    (by decide) (by decide) rfl rfl rfl).2.1) rfl (by decide)

/-- C10 (implicit): Equal does not imply structural equality — `"1.0.0-01"`
and `"1.0.0-1"` compare Equal although they parse to structurally different
Versions (prerelease token lists `["01"]` vs `["1"]`). -/
theorem equal_without_structural_equality :
    compare_semver "1.0.0-01" "1.0.0-1" = some 0 ∧
    parse_semver "1.0.0-01" = some ⟨1, 0, 0, some ["01"]⟩ ∧
    parse_semver "1.0.0-1" = some ⟨1, 0, 0, some ["1"]⟩ ∧
    (⟨1, 0, 0, some ["01"]⟩ : Version) ≠ ⟨1, 0, 0, some ["1"]⟩ := by
  refine ⟨by decide, by decide, by decide, by decide⟩

/-- Skipping a prefix of identifier pairs that all compare equal leaves the
loop's result unchanged. -/
theorem cmpList_skip_eq {α : Type} {c : α → α → Ordering} {xp yp : List α}
    (h : List.Forall₂ (fun x y => c x y = .eq) xp yp) (xs ys : List α) :
    cmpList c (xp ++ xs) (yp ++ ys) = cmpList c xs ys := by
  induction h with
  | nil => rfl
  | cons hxy _ ih =>
    simp only [List.cons_append, cmpList, hxy]
    exact ih

/-- C6: at the first prerelease index not yet decided, two all-digit tokens
compare as unsigned integers by value (ties continue the loop), and a single
all-digit token is Less than a non-digit one; hence `"1.0.0-9" < "1.0.0-10"`
and `"1.0.0-1" < "1.0.0-alpha"`. -/
theorem prerelease_numeric_tokens (xp yp : List String) (xa ya : String)
    (xr yr : List String)
    (hp : List.Forall₂ (fun s t => cmpTok s t = .eq) xp yp) :
    (pyIsDigit xa = true → pyIsDigit ya = true →
      cmpPre (xp ++ xa :: xr) (yp ++ ya :: yr) =
        (if strToNat ya < strToNat xa then .gt
         else if strToNat xa < strToNat ya then .lt
         else cmpPre xr yr)) ∧
    (pyIsDigit xa = true → pyIsDigit ya = false →
      cmpPre (xp ++ xa :: xr) (yp ++ ya :: yr) = .lt) ∧
    (pyIsDigit xa = false → pyIsDigit ya = true →
      cmpPre (xp ++ xa :: xr) (yp ++ ya :: yr) = .gt) ∧
    compare_semver "1.0.0-9" "1.0.0-10" = some (-1) ∧
    compare_semver "1.0.0-1" "1.0.0-alpha" = some (-1) := by
  have hskip := cmpList_skip_eq hp (xa :: xr) (ya :: yr)
  refine ⟨?_, ?_, ?_, by decide, by decide⟩
  · intro hxa hya
    unfold cmpPre
    rw [hskip]
    simp only [cmpList, cmpTok_dd xa ya hxa hya]
    rcases Nat.lt_trichotomy (strToNat xa) (strToNat ya) with h | h | h
    · have h1 : cmpNat (strToNat xa) (strToNat ya) = .lt := (cmpNat_lt_iff _ _).mpr h
      have h2 : ¬ strToNat ya < strToNat xa := by omega
      simp [h1, h2, h]
    · have h1 : cmpNat (strToNat xa) (strToNat ya) = .eq := (cmpNat_eq_iff _ _).mpr h
      have h2 : ¬ strToNat ya < strToNat xa := by omega
      have h3 : ¬ strToNat xa < strToNat ya := by omega
      simp [h1, h2, h3, cmpPre]
    · have h1 : cmpNat (strToNat xa) (strToNat ya) = .gt := (cmpNat_gt_iff _ _).mpr h
      simp [h1, h]
  · intro hxa hya
    unfold cmpPre
    rw [hskip]
    simp [cmpList, cmpTok_dn xa ya hxa hya]
  · intro hxa hya
    unfold cmpPre
    rw [hskip]
    simp [cmpList, cmpTok_nd xa ya hxa hya]

theorem prerelease_numeric_tokens_witness :
    cmpPre (([] : List String) ++ "9" :: []) (([] : List String) ++ "10" :: []) =
      (if strToNat "10" < strToNat "9" then .gt
       else if strToNat "9" < strToNat "10" then .lt
       else cmpPre [] []) :=
  (prerelease_numeric_tokens [] [] "9" "10" [] [] List.Forall₂.nil).1
    (by decide) (by decide)

/-- C7: with all earlier identifier pairs tied, the exhausted (shorter) side
is Less; two non-digit tokens compare lexicographically by code point, a
strict prefix being Less; the loop answers Equal exactly when the token
lists tie at every index and have equal length; hence
`"1.0.0-alpha" < "1.0.0-alpha.1"`. -/
theorem prerelease_exhaustion_and_lex (xp yp : List String) (t : String)
    (tr : List String)
    (hp : List.Forall₂ (fun s u => cmpTok s u = .eq) xp yp) :
    cmpPre xp (yp ++ t :: tr) = .lt ∧
    cmpPre (xp ++ t :: tr) yp = .gt ∧
    (∀ xa ya, pyIsDigit xa = false → pyIsDigit ya = false →
      cmpTok xa ya = cmpStr xa ya) ∧
    (∀ p c d u v, c < d →
      cmpChars (p ++ c :: u) (p ++ d :: v) = .lt) ∧
    (∀ s u, u ≠ [] → cmpChars s (s ++ u) = .lt) ∧
    (∀ xs ys, cmpPre xs ys = .eq ↔
      List.Forall₂ (fun s u => cmpTok s u = .eq) xs ys) ∧
    compare_semver "1.0.0-alpha" "1.0.0-alpha.1" = some (-1) := by
  refine ⟨?_, ?_, ?_, ?_, ?_, ?_, by decide⟩
  · have := cmpList_skip_eq hp ([] : List String) (t :: tr)
    rw [List.append_nil] at this
    unfold cmpPre
    rw [this]
    rfl
  · have := cmpList_skip_eq hp (t :: tr) ([] : List String)
    rw [List.append_nil] at this
    unfold cmpPre
    rw [this]
    rfl
  · intro xa ya hxa hya
    exact cmpTok_nn xa ya hxa hya
  · intro p c d u v hcd
    induction p with
    | nil =>
      have h1 : cmpChar c d = .lt := (cmpLin_lt_iff c d).mpr hcd
      simp [cmpChars, cmpList, h1]
    | cons e p' ih =>
      simp only [List.cons_append, cmpChars, cmpList, cmpChar_laws.rfl_eq e]
      exact ih
  · intro s u hu
    induction s with
    | nil =>
      cases u with
      | nil => exact absurd rfl hu
      | cons c r => rfl
    | cons c r ih =>
      simp only [List.cons_append, cmpChars, cmpList, cmpChar_laws.rfl_eq c]
      exact ih
  · intro xs ys
    exact cmpList_eq_iff cmpTok xs ys

theorem prerelease_exhaustion_and_lex_witness :
    cmpPre ["alpha"] (["alpha"] ++ "1" :: []) = .lt :=
  (prerelease_exhaustion_and_lex ["alpha"] ["alpha"] "1" []
    (List.Forall₂.cons (by decide) List.Forall₂.nil)).1

/-! ## Parser structure lemmas -/

theorem spanP_cons_pos (p : Char → Bool) (c : Char) (rest : List Char)
    (hc : p c = true) :
    spanP p (c :: rest) = (c :: (spanP p rest).1, (spanP p rest).2) := by
  simp [spanP, hc]

theorem spanP_cons_neg (p : Char → Bool) (c : Char) (rest : List Char)
    (hc : p c = false) :
    spanP p (c :: rest) = ([], c :: rest) := by
  simp [spanP, hc]

theorem spanP_sat_append (p : Char → Bool) (t r : List Char)
    (ht : ∀ c ∈ t, p c = true) :
    spanP p (t ++ r) = (t ++ (spanP p r).1, (spanP p r).2) := by
  induction t with
  | nil => simp
  | cons c t' ih =>
    have hc : p c = true := ht c (List.mem_cons_self c t')
    rw [List.cons_append, spanP_cons_pos p c (t' ++ r) hc,
        ih (fun x hx => ht x (List.mem_cons_of_mem c hx))]
    rfl

theorem spanP_all (p : Char → Bool) (l : List Char) (h : ∀ c ∈ l, p c = true) :
    spanP p l = (l, []) := by
  have := spanP_sat_append p l [] h
  simpa [spanP] using this

theorem spanP_fst_sat (p : Char → Bool) (l : List Char) :
    ∀ c ∈ (spanP p l).1, p c = true := by
  induction l with
  | nil => intro c hc; simp [spanP] at hc
  | cons x t ih =>
    intro c hc
    cases hx : p x
    · rw [spanP_cons_neg p x t hx] at hc
      simp at hc
    · rw [spanP_cons_pos p x t hx] at hc
      rcases List.mem_cons.mp hc with h | h
      · rw [h]; exact hx
      · exact ih c h

theorem spanP_split (p : Char → Bool) (l : List Char) :
    (spanP p l).1 ++ (spanP p l).2 = l := by
  induction l with
  | nil => rfl
  | cons x t ih =>
    cases hx : p x
    · rw [spanP_cons_neg p x t hx]
      rfl
    · rw [spanP_cons_pos p x t hx, List.cons_append, ih]

theorem spanP_append_snd_ne (p : Char → Bool) (l e : List Char)
    (h : (spanP p l).2 ≠ []) :
    spanP p (l ++ e) = ((spanP p l).1, (spanP p l).2 ++ e) := by
  induction l with
  | nil => exact absurd rfl h
  | cons x t ih =>
    cases hx : p x
    · rw [spanP_cons_neg p x t hx, List.cons_append,
          spanP_cons_neg p x (t ++ e) hx]
      try rfl
    · rw [spanP_cons_pos p x t hx] at h ⊢
      rw [List.cons_append, spanP_cons_pos p x (t ++ e) hx, ih h]

theorem spanP_append_snd_nil (p : Char → Bool) (l e : List Char)
    (h : (spanP p l).2 = []) :
    spanP p (l ++ e) = ((spanP p l).1 ++ (spanP p e).1, (spanP p e).2) := by
  induction l with
  | nil => simp [spanP]
  | cons x t ih =>
    cases hx : p x
    · rw [spanP_cons_neg p x t hx] at h
      simp at h
    · rw [spanP_cons_pos p x t hx] at h ⊢
      rw [List.cons_append, spanP_cons_pos p x (t ++ e) hx, ih h,
          List.cons_append]

theorem digitChar_spec (d : Nat) (hd : d < 10) :
    (Nat.digitChar d).isDigit = true ∧ (Nat.digitChar d).toNat - 48 = d := by
  interval_cases d <;> exact ⟨by decide, by decide⟩

theorem digitsToNat_append_one (l : List Char) (c : Char) :
    digitsToNat (l ++ [c]) = 10 * digitsToNat l + (c.toNat - 48) := by
  unfold digitsToNat
  rw [List.foldl_append]
  rfl

theorem natDigits_spec (n : Nat) :
    natDigits n ≠ [] ∧ (∀ c ∈ natDigits n, c.isDigit = true) ∧
    digitsToNat (natDigits n) = n := by
  induction n using Nat.strong_induction_on with
  | _ n ih =>
    by_cases h : n < 10
    · rw [natDigits, dif_pos h]
      refine ⟨by simp, ?_, ?_⟩
      · intro c hc
        rw [List.mem_singleton] at hc
        rw [hc]
        exact (digitChar_spec n h).1
      · show digitsToNat [Nat.digitChar n] = n
        have : digitsToNat [Nat.digitChar n] = (Nat.digitChar n).toNat - 48 := by
          simp [digitsToNat]
        rw [this]
        exact (digitChar_spec n h).2
    · rw [natDigits, dif_neg h]
      have hlt : n / 10 < n := Nat.div_lt_self (by omega) (by omega)
      obtain ⟨ih1, ih2, ih3⟩ := ih (n / 10) hlt
      have hmod : n % 10 < 10 := Nat.mod_lt _ (by omega)
      refine ⟨by simp, ?_, ?_⟩
      · intro c hc
        rcases List.mem_append.mp hc with hm | hm
        · exact ih2 c hm
        · rw [List.mem_singleton] at hm
          rw [hm]
          exact (digitChar_spec (n % 10) hmod).1
      · rw [digitsToNat_append_one, ih3, (digitChar_spec (n % 10) hmod).2]
        omega

theorem splitDotsAux_ne_nil (l : List Char) : ∀ acc, splitDotsAux l acc ≠ [] := by
  induction l with
  | nil => intro acc; simp [splitDotsAux]
  | cons c r ih =>
    intro acc
    by_cases h : c = '.'
    · simp [splitDotsAux, h]
    · simp only [splitDotsAux, if_neg h]
      exact ih (c :: acc)

theorem joinDots_splitDotsAux (l : List Char) :
    ∀ acc, joinDots (splitDotsAux l acc) = acc.reverse ++ l := by
  induction l with
  | nil =>
    intro acc
    simp [splitDotsAux, joinDots]
  | cons c r ih =>
    intro acc
    by_cases h : c = '.'
    · subst h
      simp only [splitDotsAux, if_pos rfl]
      rcases hsh : splitDotsAux r [] with _ | ⟨s, t⟩
      · exact absurd hsh (splitDotsAux_ne_nil r [])
      · simp only [joinDots]
        rw [← hsh, ih []]
        simp
    · simp only [splitDotsAux, if_neg h]
      rw [ih (c :: acc)]
      simp

theorem joinDots_splitDots (l : List Char) : joinDots (splitDots l) = l := by
  have := joinDots_splitDotsAux l []
  simpa [splitDots] using this

theorem parseRelease_build (d1 d2 d3 rest : List Char)
    (h1 : d1 ≠ []) (h1d : ∀ c ∈ d1, c.isDigit = true)
    (h2 : d2 ≠ []) (h2d : ∀ c ∈ d2, c.isDigit = true)
    (h3 : d3 ≠ []) (h3d : ∀ c ∈ d3, c.isDigit = true)
    (hrest : rest = [] ∨ ∃ c r, rest = c :: r ∧ c.isDigit = false) :
    parseRelease (d1 ++ '.' :: (d2 ++ '.' :: (d3 ++ rest))) =
      some (digitsToNat d1, digitsToNat d2, digitsToNat d3, rest) := by
  have hd3 : spanP Char.isDigit (d3 ++ rest) = (d3, rest) := by
    rcases hrest with h | ⟨c, r, hcr, hc⟩
    · subst h
      simpa using spanP_all Char.isDigit d3 h3d
    · subst hcr
      rw [spanP_sat_append Char.isDigit d3 (c :: r) h3d,
          spanP_cons_neg Char.isDigit c r hc]
      simp
  have hd2 : spanP Char.isDigit (d2 ++ '.' :: (d3 ++ rest)) =
      (d2, '.' :: (d3 ++ rest)) := by
    rw [spanP_sat_append Char.isDigit d2 _ h2d,
        spanP_cons_neg Char.isDigit '.' _ (by decide)]
    simp
  have hd1 : spanP Char.isDigit (d1 ++ '.' :: (d2 ++ '.' :: (d3 ++ rest))) =
      (d1, '.' :: (d2 ++ '.' :: (d3 ++ rest))) := by
    rw [spanP_sat_append Char.isDigit d1 _ h1d,
        spanP_cons_neg Char.isDigit '.' _ (by decide)]
    simp
  unfold parseRelease
  rw [hd1]
  simp only [h1, if_neg, if_pos]
  simp [hd2, hd3, h1, h2, h3]

theorem parseTail_pre (p : List Char) (hp : p ≠ [])
    (hpc : ∀ c ∈ p, isIdentChar c = true) :
    parseTail ('-' :: p) = some (some (splitDots p)) := by
  simp only [parseTail, if_pos rfl]
  rw [spanP_all isIdentChar p hpc]
  simp [hp]

theorem parse_semver_mk (l : List Char) :
    parse_semver (String.mk l) =
      (match parseRelease l with
       | none => none
       | some (ma, mi, pa, rest) =>
         match parseTail rest with
         | none => none
         | some pre => some (⟨ma, mi, pa, pre⟩ : Version)) := rfl

theorem parse_serialize_aux (a b c : Nat) (pre : Option (List String))
    (hpre : pre = none ∨ ∃ p, p ≠ [] ∧ (∀ ch ∈ p, isIdentChar ch = true) ∧
      pre = some (splitDots p)) :
    parse_semver (serialize ⟨a, b, c, pre⟩) = some ⟨a, b, c, pre⟩ := by
  obtain ⟨ha1, ha2, ha3⟩ := natDigits_spec a
  obtain ⟨hb1, hb2, hb3⟩ := natDigits_spec b
  obtain ⟨hc1, hc2, hc3⟩ := natDigits_spec c
  rcases hpre with h | ⟨p, hp1, hp2, hps⟩
  · subst h
    have e1 : serialize ⟨a, b, c, none⟩ =
        String.mk (natDigits a ++ '.' :: (natDigits b ++ '.' ::
          (natDigits c ++ []))) := by
      simp [serialize]
    rw [e1, parse_semver_mk,
        parseRelease_build _ _ _ [] ha1 ha2 hb1 hb2 hc1 hc2 (Or.inl rfl)]
    simp [parseTail, ha3, hb3, hc3]
  · subst hps
    have e1 : serialize ⟨a, b, c, some (splitDots p)⟩ =
        String.mk (natDigits a ++ '.' :: (natDigits b ++ '.' ::
          (natDigits c ++ '-' :: p))) := by
      simp [serialize, joinDots_splitDots p]
    rw [e1, parse_semver_mk,
        parseRelease_build _ _ _ ('-' :: p) ha1 ha2 hb1 hb2 hc1 hc2
          (Or.inr ⟨'-', p, rfl, by decide⟩)]
    simp [parseTail_pre p hp1 hp2, ha3, hb3, hc3]

theorem parseTail_some (r : List Char) (pre : Option (List String))
    (h : parseTail r = some pre) :
    pre = none ∨ ∃ p, p ≠ [] ∧ (∀ c ∈ p, isIdentChar c = true) ∧
      pre = some (splitDots p) := by
  cases r with
  | nil =>
    simp only [parseTail, Option.some.injEq] at h
    exact Or.inl h.symm
  | cons c r' =>
    simp only [parseTail] at h
    by_cases hc : c = '-'
    · rw [if_pos hc] at h
      by_cases hsp : (spanP isIdentChar r').1 = []
      · rw [if_pos hsp] at h
        exact Option.noConfusion h
      · rw [if_neg hsp] at h
        cases hs2 : (spanP isIdentChar r').2 with
        | nil =>
          simp only [hs2, Option.some.injEq] at h
          exact Or.inr ⟨(spanP isIdentChar r').1, hsp,
            spanP_fst_sat isIdentChar r', h.symm⟩
        | cons c2 r2 =>
          simp only [hs2] at h
          by_cases hc2 : c2 = '+'
          · rw [if_pos hc2] at h
            by_cases hb1 : (spanP isIdentChar r2).1 = []
            · rw [if_pos hb1] at h
              exact Option.noConfusion h
            · rw [if_neg hb1] at h
              by_cases hb2 : (spanP isIdentChar r2).2 = []
              · rw [if_pos hb2] at h
                simp only [Option.some.injEq] at h
                exact Or.inr ⟨(spanP isIdentChar r').1, hsp,
                  spanP_fst_sat isIdentChar r', h.symm⟩
              · rw [if_neg hb2] at h
                exact Option.noConfusion h
          · rw [if_neg hc2] at h
            exact Option.noConfusion h
    · rw [if_neg hc] at h
      by_cases hcp : c = '+'
      · rw [if_pos hcp] at h
        by_cases hb1 : (spanP isIdentChar r').1 = []
        · rw [if_pos hb1] at h
          exact Option.noConfusion h
        · rw [if_neg hb1] at h
          by_cases hb2 : (spanP isIdentChar r').2 = []
          · rw [if_pos hb2] at h
            simp only [Option.some.injEq] at h
            exact Or.inl h.symm
          · rw [if_neg hb2] at h
            exact Option.noConfusion h
      · rw [if_neg hcp] at h
        exact Option.noConfusion h

/-- Inversion of a successful parse into its components. -/
theorem parse_semver_inv (s : String) (v : Version)
    (h : parse_semver s = some v) :
    ∃ rest, parseRelease s.data = some (v.major, v.minor, v.patch, rest) ∧
      parseTail rest = some v.pre := by
  unfold parse_semver at h
  cases hr : parseRelease s.data with
  | none =>
    rw [hr] at h
    exact Option.noConfusion h
  | some q =>
    obtain ⟨ma, mi, pa, rest⟩ := q
    rw [hr] at h
    have h2 : (match parseTail rest with
      | none => none
      | some pre => some (⟨ma, mi, pa, pre⟩ : Version)) = some v := h
    cases ht : parseTail rest with
    | none =>
      rw [ht] at h2
      exact Option.noConfusion h2
    | some pre =>
      rw [ht] at h2
      have hv : (⟨ma, mi, pa, pre⟩ : Version) = v := Option.some.inj h2
      subst hv
      exact ⟨rest, rfl, ht⟩

/-- C8: parsing the canonical serialization of any parsed version gives back
a structurally equal version. -/
theorem parse_serialize_roundtrip (s : String) (v : Version)
    (h : parse_semver s = some v) :
    parse_semver (serialize v) = some v := by
  obtain ⟨rest, _, ht⟩ := parse_semver_inv s v h
  have := parse_serialize_aux v.major v.minor v.patch v.pre
    (parseTail_some rest v.pre ht)
  exact this

theorem parse_serialize_roundtrip_witness :
    parse_semver (serialize ⟨1, 2, 3, some ["alpha", "1"]⟩) =
      some ⟨1, 2, 3, some ["alpha", "1"]⟩ :=
  parse_serialize_roundtrip "1.2.3-alpha.1+build.5"
    ⟨1, 2, 3, some ["alpha", "1"]⟩ (by decide)

/-- C2 counterexample: a major component exceeding the 64-bit unsigned range
(`2^64 = 18446744073709551616`) does NOT make parsing fail — the claim that
such inputs fail with `NumericOverflow` is false on the code, which has no
overflow failure at all. -/
theorem overflow_input_accepted :
    parse_semver "18446744073709551616.0.0" =
      some ⟨18446744073709551616, 0, 0, none⟩ := by decide

/-- C2 amended: numeric components of any magnitude are accepted and stored
exactly (Python integers are unbounded); there is no `NumericOverflow`
failure value — the only parse failure is the generic `None`. -/
theorem large_components_accepted (n : Nat) :
    parse_semver (String.mk (natDigits n ++ '.' :: (['0'] ++ '.' ::
      (['0'] ++ [])))) = some ⟨n, 0, 0, none⟩ := by
  obtain ⟨h1, h2, h3⟩ := natDigits_spec n
  rw [parse_semver_mk,
      parseRelease_build (natDigits n) ['0'] ['0'] [] h1 h2
        (by simp) (by intro c hc; rw [List.mem_singleton] at hc; rw [hc]; decide)
        (by simp) (by intro c hc; rw [List.mem_singleton] at hc; rw [hc]; decide)
        (Or.inl rfl)]
  simp [parseTail, h3]
  decide

/-- C3 counterexample: an input with an empty identifier in the prerelease
(consecutive dots) does NOT fail — the claim that it yields
`MalformedVersion` is false on the code, whose regex class `[0-9A-Za-z.-]`
admits the dots. -/
theorem empty_identifier_not_rejected :
    parse_semver "1.0.0-a..b" ≠ none := by decide

/-- C3 amended: inputs with empty identifiers in the prerelease segment
(consecutive dots, or a prerelease consisting only of dots) parse
successfully, producing empty-string tokens in the prerelease list. -/
theorem empty_identifier_accepted :
    parse_semver "1.0.0-a..b" = some ⟨1, 0, 0, some ["a", "", "b"]⟩ ∧
    parse_semver "1.0.0-." = some ⟨1, 0, 0, some ["", ""]⟩ := by
  refine ⟨by decide, by decide⟩

theorem spanP_snd_head (p : Char → Bool) (l : List Char) :
    (spanP p l).2 = [] ∨ ∃ c t, (spanP p l).2 = c :: t ∧ p c = false := by
  induction l with
  | nil => exact Or.inl rfl
  | cons x t ih =>
    cases hx : p x
    · rw [spanP_cons_neg p x t hx]
      exact Or.inr ⟨x, t, rfl, hx⟩
    · rw [spanP_cons_pos p x t hx]
      exact ih

theorem parseRelease_some (l : List Char) (a b c : Nat) (r : List Char)
    (h : parseRelease l = some (a, b, c, r)) :
    ∃ d1 d2 d3, d1 ≠ [] ∧ (∀ ch ∈ d1, ch.isDigit = true) ∧
      d2 ≠ [] ∧ (∀ ch ∈ d2, ch.isDigit = true) ∧
      d3 ≠ [] ∧ (∀ ch ∈ d3, ch.isDigit = true) ∧
      a = digitsToNat d1 ∧ b = digitsToNat d2 ∧ c = digitsToNat d3 ∧
      l = d1 ++ '.' :: (d2 ++ '.' :: (d3 ++ r)) ∧
      (r = [] ∨ ∃ c0 r0, r = c0 :: r0 ∧ c0.isDigit = false) := by
  unfold parseRelease at h
  by_cases h1 : (spanP Char.isDigit l).1 = []
  · rw [if_pos h1] at h
    exact Option.noConfusion h
  · rw [if_neg h1] at h
    cases hs1 : (spanP Char.isDigit l).2 with
    | nil =>
      rw [hs1] at h
      exact Option.noConfusion h
    | cons c1 r1 =>
      rw [hs1] at h
      have h2 : (if c1 = '.' then
          (if (spanP Char.isDigit r1).1 = [] then none
           else
             match (spanP Char.isDigit r1).2 with
             | [] => none
             | c2 :: r2 =>
               if c2 = '.' then
                 (if (spanP Char.isDigit r2).1 = [] then none
                  else
                    some (digitsToNat (spanP Char.isDigit l).1,
                          digitsToNat (spanP Char.isDigit r1).1,
                          digitsToNat (spanP Char.isDigit r2).1,
                          (spanP Char.isDigit r2).2))
               else none)
        else none) = some (a, b, c, r) := h
      by_cases hc1 : c1 = '.'
      · rw [if_pos hc1] at h2
        by_cases hb1 : (spanP Char.isDigit r1).1 = []
        · rw [if_pos hb1] at h2
          exact Option.noConfusion h2
        · rw [if_neg hb1] at h2
          cases hs2 : (spanP Char.isDigit r1).2 with
          | nil =>
            rw [hs2] at h2
            exact Option.noConfusion h2
          | cons c2 r2 =>
            rw [hs2] at h2
            have h3 : (if c2 = '.' then
                (if (spanP Char.isDigit r2).1 = [] then none
                 else
                   some (digitsToNat (spanP Char.isDigit l).1,
                         digitsToNat (spanP Char.isDigit r1).1,
                         digitsToNat (spanP Char.isDigit r2).1,
                         (spanP Char.isDigit r2).2))
              else none) = some (a, b, c, r) := h2
            by_cases hc2 : c2 = '.'
            · rw [if_pos hc2] at h3
              by_cases hb2 : (spanP Char.isDigit r2).1 = []
              · rw [if_pos hb2] at h3
                exact Option.noConfusion h3
              · rw [if_neg hb2] at h3
                have h4 := Option.some.inj h3
                obtain ⟨ha, hb, hc, hr⟩ : a = digitsToNat (spanP Char.isDigit l).1 ∧
                    b = digitsToNat (spanP Char.isDigit r1).1 ∧
                    c = digitsToNat (spanP Char.isDigit r2).1 ∧
                    r = (spanP Char.isDigit r2).2 := by
                  have e1 := congrArg Prod.fst h4
                  have e2 := congrArg (fun q => q.2.1) h4
                  have e3 := congrArg (fun q => q.2.2.1) h4
                  have e4 := congrArg (fun q => q.2.2.2) h4
                  exact ⟨e1.symm, e2.symm, e3.symm, e4.symm⟩
                refine ⟨(spanP Char.isDigit l).1, (spanP Char.isDigit r1).1,
                  (spanP Char.isDigit r2).1, h1, spanP_fst_sat Char.isDigit l,
                  hb1, spanP_fst_sat Char.isDigit r1,
                  hb2, spanP_fst_sat Char.isDigit r2,
                  ha, hb, hc, ?_, ?_⟩
                · have e1 := spanP_split Char.isDigit l
                  have e2 := spanP_split Char.isDigit r1
                  have e3 := spanP_split Char.isDigit r2
                  rw [hs1, hc1] at e1
                  rw [hs2, hc2] at e2
                  rw [hr, e3, e2, e1]
                · rw [hr]
                  exact spanP_snd_head Char.isDigit r2
            · rw [if_neg hc2] at h3
              exact Option.noConfusion h3
      · rw [if_neg hc1] at h2
        exact Option.noConfusion h2

theorem parseRelease_append (l e : List Char) (a b c : Nat) (r : List Char)
    (h : parseRelease l = some (a, b, c, r))
    (he : e = [] ∨ ∃ c0 r0, e = c0 :: r0 ∧ c0.isDigit = false) :
    parseRelease (l ++ e) = some (a, b, c, r ++ e) := by
  obtain ⟨d1, d2, d3, h1, h1d, h2, h2d, h3, h3d, ha, hb, hc, hl, hr⟩ :=
    parseRelease_some l a b c r h
  have hrest : r ++ e = [] ∨ ∃ c0 r0, r ++ e = c0 :: r0 ∧ c0.isDigit = false := by
    rcases hr with h' | ⟨c0, r0, hcr, hcd⟩
    · subst h'
      simpa using he
    · subst hcr
      exact Or.inr ⟨c0, r0 ++ e, rfl, hcd⟩
  have hle : l ++ e = d1 ++ '.' :: (d2 ++ '.' :: (d3 ++ (r ++ e))) := by
    rw [hl]
    simp [List.append_assoc]
  rw [hle, parseRelease_build d1 d2 d3 (r ++ e) h1 h1d h2 h2d h3 h3d hrest,
      ha, hb, hc]

theorem parseTail_append_plus (r m : List Char) (pre : Option (List String))
    (hpt : parseTail r = some pre) (hplus : '+' ∉ r)
    (hm : m ≠ []) (hmc : ∀ c ∈ m, isIdentChar c = true) :
    parseTail (r ++ '+' :: m) = some pre := by
  cases r with
  | nil =>
    have hpre : pre = none := (Option.some.inj hpt).symm
    subst hpre
    simp only [List.nil_append, parseTail]
    rw [spanP_all isIdentChar m hmc]
    simp [hm]
  | cons c r' =>
    have hcne : c ≠ '+' := fun hh => hplus (hh ▸ List.mem_cons_self c r')
    have hpr' : '+' ∉ r' := fun hh => hplus (List.mem_cons_of_mem c hh)
    simp only [parseTail] at hpt
    simp only [List.cons_append, parseTail]
    by_cases hcd : c = '-'
    · rw [if_pos hcd] at hpt ⊢
      by_cases hsp : (spanP isIdentChar r').1 = []
      · rw [if_pos hsp] at hpt
        exact Option.noConfusion hpt
      · rw [if_neg hsp] at hpt
        cases hs2 : (spanP isIdentChar r').2 with
        | nil =>
          rw [hs2] at hpt
          have hpre : some (splitDots (spanP isIdentChar r').1) = pre :=
            Option.some.inj hpt
          have hap : spanP isIdentChar (r' ++ '+' :: m) =
              ((spanP isIdentChar r').1, '+' :: m) := by
            rw [spanP_append_snd_nil isIdentChar r' ('+' :: m) hs2,
                spanP_cons_neg isIdentChar '+' m (by decide)]
            simp
          simp only [hap]
          rw [if_neg hsp]
          show (if ('+' : Char) = '+' then
              (if (spanP isIdentChar m).1 = [] then none
               else if (spanP isIdentChar m).2 = [] then
                 some (some (splitDots (spanP isIdentChar r').1))
               else none)
            else none) = some pre
          rw [if_pos rfl, spanP_all isIdentChar m hmc]
          simp [hm]
          exact hpre
        | cons c2 r2 =>
          have hc2m : c2 ∈ r' := by
            have hsplit := spanP_split isIdentChar r'
            rw [hs2] at hsplit
            rw [← hsplit]
            exact List.mem_append.mpr (Or.inr (List.mem_cons_self c2 r2))
          have hc2 : c2 ≠ '+' := fun hh => hpr' (hh ▸ hc2m)
          rw [hs2] at hpt
          have hpt2 : (if c2 = '+' then
              (if (spanP isIdentChar r2).1 = [] then none
               else if (spanP isIdentChar r2).2 = [] then
                 some (some (splitDots (spanP isIdentChar r').1))
               else none)
            else none) = some pre := hpt
          rw [if_neg hc2] at hpt2
          exact Option.noConfusion hpt2
    · rw [if_neg hcd] at hpt
      by_cases hcp : c = '+'
      · exact absurd hcp hcne
      · rw [if_neg hcp] at hpt
        exact Option.noConfusion hpt

/-- C9: build metadata is discarded at parse time and never affects any
result: attaching any valid `+meta` suffix to a string that parses (and has
no `+` of its own) yields a structurally equal Version, and comparing two
such decorations of the same core returns Equal. -/
theorem buildmeta_ignored (s : String) (v : Version) (m1 m2 : List Char)
    (hplus : '+' ∉ s.data) (hv : parse_semver s = some v)
    (hm1 : m1 ≠ []) (hm1c : ∀ c ∈ m1, isIdentChar c = true)
    (hm2 : m2 ≠ []) (hm2c : ∀ c ∈ m2, isIdentChar c = true) :
    parse_semver (String.mk (s.data ++ '+' :: m1)) = some v ∧
    parse_semver (String.mk (s.data ++ '+' :: m2)) = some v ∧
    compare_semver (String.mk (s.data ++ '+' :: m1))
      (String.mk (s.data ++ '+' :: m2)) = some 0 ∧
    compare_semver (String.mk (s.data ++ '+' :: m1)) s = some 0 := by
  obtain ⟨rest, hr, ht⟩ := parse_semver_inv s v hv
  have hplusr : '+' ∉ rest := by
    obtain ⟨d1, d2, d3, _, _, _, _, _, _, _, _, _, hl, _⟩ :=
      parseRelease_some s.data v.major v.minor v.patch rest hr
    intro hm
    apply hplus
    rw [hl]
    simp [hm]
  have key : ∀ m, m ≠ [] → (∀ c ∈ m, isIdentChar c = true) →
      parse_semver (String.mk (s.data ++ '+' :: m)) = some v := by
    intro m hm hmc
    rw [parse_semver_mk,
        parseRelease_append s.data ('+' :: m) v.major v.minor v.patch rest hr
          (Or.inr ⟨'+', m, rfl, by decide⟩)]
    show (match parseTail (rest ++ '+' :: m) with
      | none => none
      | some pre => some (⟨v.major, v.minor, v.patch, pre⟩ : Version)) = some v
    rw [parseTail_append_plus rest m v.pre ht hplusr hm hmc]
  have k1 := key m1 hm1 hm1c
  have k2 := key m2 hm2 hm2c
  refine ⟨k1, k2, ?_, ?_⟩
  · rw [compare_semver_parsed _ _ v v k1 k2, cmpVer_laws.rfl_eq v]
    rfl
  · rw [compare_semver_parsed _ _ v v k1 hv, cmpVer_laws.rfl_eq v]
    rfl

theorem buildmeta_ignored_witness :
    parse_semver (String.mk ("1.0.0-a".data ++ '+' :: ['x'])) =
      some ⟨1, 0, 0, some ["a"]⟩ ∧
    parse_semver (String.mk ("1.0.0-a".data ++ '+' :: ['y', 'z'])) =
      some ⟨1, 0, 0, some ["a"]⟩ ∧
    compare_semver (String.mk ("1.0.0-a".data ++ '+' :: ['x']))
      (String.mk ("1.0.0-a".data ++ '+' :: ['y', 'z'])) = some 0 ∧
    compare_semver (String.mk ("1.0.0-a".data ++ '+' :: ['x'])) "1.0.0-a" =
      some 0 :=
  buildmeta_ignored "1.0.0-a" ⟨1, 0, 0, some ["a"]⟩ ['x'] ['y', 'z']
    (by decide) (by decide) (by decide) (by decide) (by decide) (by decide)
